import Mathlib

/-!
Shallow embedding of the firefly essay-analyzer repository.

The crawl-policy engine, fetch-retry loop, aggregator and text extractor
are translated from the Go sources:
  internal/fetcher/fetcher.go   (robots.txt parsing, IsAllowed, GetCrawlDelay,
                                 FetchURL retry loop, backoff)
  internal/aggregator           (AddResult, GetTopWords, GetStats)
  internal/parser               (ExtractText, GetFailedCount)

Strings are handled at the character-list level so that every definition
evaluates inside the kernel.  Go's byte-oriented string functions
(strings.HasPrefix, strings.Contains, strings.TrimSpace, strconv.Atoi,
bufio line scanning) coincide with the character-level versions below on
the ASCII inputs the program deals with.
-/

namespace Firefly

/-! ### Character-level string helpers (models of Go strings functions) -/

/-- Model of the whitespace test used by strings.TrimSpace: the ASCII
part of unicode.IsSpace (space, tab, newline, vertical tab, form
feed, carriage return).  unicode.IsSpace also accepts NEL and the
Unicode space runes, which the ASCII robots.txt and selector inputs
of this program never contain. -/
def isSpaceChar (c : Char) : Bool :=
  c = ' ' || c = '\t' || c = '\n' || c = '\x0b' || c = '\x0c' || c = '\r'

/-- Model of strings.TrimSpace on the character list of a string. -/
def trimList (s : List Char) : List Char :=
  ((s.dropWhile isSpaceChar).reverse.dropWhile isSpaceChar).reverse

/-- strings.TrimSpace, producing a `String` again. -/
def trimStr (s : String) : String :=
  String.mk (trimList s.toList)

/-- Model of strings.EqualFold.  Go performs Unicode simple case folding;
on the ASCII agent names this program compares, that is exactly
lower-casing both sides. -/
def equalFold (a b : String) : Bool :=
  a.toList.map Char.toLower == b.toList.map Char.toLower

/-- Model of strings.SplitN(line, sep, 2) restricted to a one-character
separator: split at the first occurrence, or `none` when the separator
does not occur (Go would return a one-element slice, which the robots
parser skips). -/
def splitFirst (sep : Char) : List Char → Option (List Char × List Char)
  | [] => none
  | c :: cs =>
    if c = sep then some ([], cs)
    else
      match splitFirst sep cs with
      | some (l, r) => some (c :: l, r)
      | none => none

/-- Accumulator for line splitting: the first component is the current
line read so far, in reverse. -/
def splitLinesAux : List Char → List Char → List (List Char)
  | acc, [] => [acc.reverse]
  | acc, c :: cs =>
    if c = '\n' then acc.reverse :: splitLinesAux [] cs
    else splitLinesAux (c :: acc) cs

/-- Model of bufio.Scanner line splitting: split the document at each
newline character.  (Go's ScanLines also strips a trailing carriage
return; trimList removes it anyway.) -/
def splitLines (s : List Char) : List (List Char) :=
  splitLinesAux [] s

/-- Model of strconv.Atoi on a digit run (no sign). -/
def parseDigits (ds : List Char) : Option Nat :=
  if ds = [] then none
  else if ds.all Char.isDigit then
    some (ds.foldl (fun acc c => acc * 10 + (c.toNat - '0'.toNat)) 0)
  else none

/-- Model of strconv.Atoi: optional sign followed by at least one digit.
(Atoi additionally rejects values outside int64; the crawl delays this
program meets are tiny, so overflow never matters.) -/
def parseInt (s : List Char) : Option Int :=
  match s with
  | '-' :: ds => (parseDigits ds).map (fun n => -(n : Int))
  | '+' :: ds => (parseDigits ds).map (fun n => (n : Int))
  | ds => (parseDigits ds).map (fun n => (n : Int))

/-! ### Crawl-policy engine (fetcher.go) -/

/-- RobotsRule from fetcher.go: one robots.txt rule group.  CrawlDelay is
held in whole seconds (the Go code stores Atoi(value) seconds as a
time.Duration, so the sign and zero tests below are the same). -/
structure RobotsRule where
  userAgent : String
  disallowed : List String
  crawlDelay : Int
deriving DecidableEq, Repr

/-- Helper for the wildcard branch of matchesPattern: does f accept the
list itself, or a suffix reached by deleting leading characters none
of which is a newline?  This is how a Go regular expression `.*`
segment consumes an arbitrary run of characters: in the default (non
s-flag) mode of package regexp, `.` matches any character except a
newline, so the consumed run may not cross one. -/
def starSkip (f : List Char → Bool) : List Char → Bool
  | [] => f []
  | c :: cs => f (c :: cs) || (if c = '\n' then false else starSkip f cs)

/-- Model of the regex match in matchesPattern.  The Go code builds
  regexp.MatchString("^" + QuoteMeta(pattern) with each \* replaced
  by .*, path)
so the pattern is anchored at the start of the path, each `*` stands
for any run of non-newline characters (regexp's `.` excludes the
newline by default; every other pattern character is quoted and
matches itself, a newline included), and the match may end before the
path does (MatchString does not anchor the end).  wildcardMatch pat s
decides exactly that. -/
def wildcardMatch : List Char → List Char → Bool
  | [], _ => true
  | p :: ps, xs =>
    if p = '*' then starSkip (wildcardMatch ps) xs
    else
      match xs with
      | [] => false
      | c :: cs => (p == c) && wildcardMatch ps cs

/-- Star skipping as claim C4 words it: `*` stands for ANY character
sequence, a newline included.  Vocabulary for the C4 counterexample
only; the Go regexp's `.` excludes the newline, so this differs from
starSkip on paths that contain one. -/
def anySuffix (f : List Char → Bool) : List Char → Bool
  | [] => f []
  | c :: cs => f (c :: cs) || anySuffix f cs

/-- The anchored wildcard match exactly as claim C4 states it, with `*`
standing for any character sequence (newline included).  On paths
without a newline it agrees with wildcardMatch; claim C4's
counterexample separates them. -/
def claimedWildcardMatch : List Char → List Char → Bool
  | [], _ => true
  | p :: ps, xs =>
    if p = '*' then anySuffix (claimedWildcardMatch ps) xs
    else
      match xs with
      | [] => false
      | c :: cs => (p == c) && claimedWildcardMatch ps cs

/-- matchesPattern from fetcher.go, on character lists.  An empty pattern
matches nothing; a pattern containing `*` is tried as an anchored
wildcard match and, failing that, falls through to the same plain
test as a pattern without `*`: is the pattern a literal starting
segment of the path (strings.HasPrefix). -/
def matchesPatternL (path pattern : List Char) : Bool :=
  if pattern = [] then false
  else if pattern.contains '*' then
    if wildcardMatch pattern path then true
    else pattern.isPrefixOf path
  else pattern.isPrefixOf path

/-- matchesPattern from fetcher.go on Strings (Go compares bytes; on the
ASCII paths and patterns of robots.txt this is the same as comparing
characters). -/
def matchesPattern (path pattern : String) : Bool :=
  matchesPatternL path.toList pattern.toList

/-- Processing of one robots.txt line, from the scanner loop of
parseRobotsTxt in fetcher.go.  The state is the list of flushed rule
groups together with the currently open group, if any. -/
def processLine (st : List RobotsRule × Option RobotsRule) (rawLine : List Char) :
    List RobotsRule × Option RobotsRule :=
  let line := trimList rawLine
  if line = [] || line.headD ' ' = '#' then st
  else
    match splitFirst ':' line with
    | none => st
    | some (k, v) =>
      let key := String.mk ((trimList k).map Char.toLower)
      let value := String.mk (trimList v)
      if key = "user-agent" then
        (st.1 ++ st.2.toList, some ⟨value, [], 0⟩)
      else if key = "disallow" then
        match st.2 with
        | some r =>
          if value = "" then st
          else (st.1, some { r with disallowed := r.disallowed ++ [value] })
        | none => st
      else if key = "crawl-delay" then
        match st.2 with
        | some r =>
          match parseInt value.toList with
          | some d => (st.1, some { r with crawlDelay := d })
          | none => st
        | none => st
      else st

/-- parseRobotsTxt from fetcher.go: scan the document line by line,
fold processLine over it, and flush the final open rule group. -/
def parseRobotsTxt (doc : String) : List RobotsRule :=
  let st := (splitLines doc.toList).foldl processLine ([], none)
  st.1 ++ st.2.toList

/-- RobotsParser.IsAllowed from fetcher.go.  The URL-parsing call
url.Parse(urlStr) is abstracted as the parsedPath argument: `none`
models a string net/url rejects (for example one with a bad percent
escape, "https://e.com/%zz"), and `some p` models a URL whose path
component is p.  With zero rule groups the Go code returns true before
looking at the URL; otherwise a parse failure returns false; otherwise
an empty path defaults to "/", the applicable groups are those whose
agent matches case-insensitively followed by every wildcard group,
and the path is allowed unless some applicable disallow pattern
matches it. -/
def isAllowed (rules : List RobotsRule) (parsedPath : Option String)
    (userAgent : String) : Bool :=
  if rules.isEmpty then true
  else
    match parsedPath with
    | none => false
    | some rawPath =>
      let path := if rawPath = "" then "/" else rawPath
      let applicableRules :=
        rules.filter (fun r => equalFold r.userAgent userAgent) ++
          rules.filter (fun r => r.userAgent == "*")
      !(applicableRules.any fun r =>
          r.disallowed.any fun pat => matchesPattern path pat)

/-- RobotsParser.GetCrawlDelay from fetcher.go: first agent-specific
group with positive delay, else first wildcard group with positive
delay, else zero.  List.find? is the two return-on-first-match loops
of the Go code. -/
def getCrawlDelay (rules : List RobotsRule) (userAgent : String) : Int :=
  if rules.isEmpty then 0
  else
    match rules.find? (fun r => equalFold r.userAgent userAgent && decide (0 < r.crawlDelay)) with
    | some r => r.crawlDelay
    | none =>
      match rules.find? (fun r => r.userAgent == "*" && decide (0 < r.crawlDelay)) with
      | some r => r.crawlDelay
      | none => 0

/-! ### Fetch stage (fetcher.go: constants, New, LoadRobotsTxt, FetchURL, backoff) -/

/-- UserAgent constant from fetcher.go. -/
def UserAgentName : String := "EssayAnalyzer/1.0"

/-- MaxRetries constant from fetcher.go. -/
def maxRetries : Nat := 3

/-- backoff from fetcher.go, as the number of seconds slept:
BackoffBase (1 s) shifted left by the attempt index, capped at 30 s. -/
def backoffSeconds (attempt : Nat) : Nat :=
  min (2 ^ attempt) 30

/-- Outcome of one network attempt (client.Do plus the status code of the
response): either a transport-level error or a response carrying a
status code and a body. -/
inductive AttemptOutcome where
  | transportError (msg : String)
  | response (status : Nat) (body : String)
deriving DecidableEq, Repr

/-- Per-attempt error values recorded in lastErr by FetchURL: the
wrapped transport error from client.Do, or the HTTP-status error
built for a status of 400 or above. -/
inductive AttemptError where
  | transport (msg : String)
  | httpStatus (status : Nat)
deriving DecidableEq, Repr

/-- Errors FetchURL can produce, following the fmt.Errorf sites in
fetcher.go: the robots.txt denial, the immediate per-attempt error
returned for a 4xx, and the final failed-after-N-attempts error
wrapping the last cause (a transport error or a 5xx status error). -/
inductive FetchError where
  | policyDenied (url : String)
  | attemptFailed (e : AttemptError)
  | retriesExhausted (attempts : Nat) (last : Option AttemptError)
deriving DecidableEq, Repr

/-- Decidable equality for Except values, needed to decide statements
about concrete fetch traces. -/
instance {ε α : Type} [DecidableEq ε] [DecidableEq α] : DecidableEq (Except ε α) := fun a b =>
  match a, b with
  | .ok x, .ok y =>
    if h : x = y then isTrue (by rw [h]) else isFalse (by intro hh; cases hh; exact h rfl)
  | .error x, .error y =>
    if h : x = y then isTrue (by rw [h]) else isFalse (by intro hh; cases hh; exact h rfl)
  | .ok _, .error _ => isFalse (by intro hh; cases hh)
  | .error _, .ok _ => isFalse (by intro hh; cases hh)

/-- Observable trace of one FetchURL call: the returned value (body on
success), the number of rate-gate tokens consumed (one
rateLimiter.Wait per loop iteration), and the backoff sleeps
performed, in seconds, in order. -/
structure FetchTrace where
  result : Except FetchError String
  tokensUsed : Nat
  backoffs : List Nat
deriving DecidableEq, Repr

/-- Is this attempt outcome retried by FetchURL?  Transport failures and
5xx statuses are; everything else either succeeds or fails
immediately. -/
def isTransient : AttemptOutcome → Bool
  | .transportError _ => true
  | .response status _ => 500 ≤ status

/-- The error recorded in lastErr for a transient outcome. -/
def transientErr : AttemptOutcome → AttemptError
  | .transportError msg => .transport msg
  | .response status _ => .httpStatus status

/-- Retry loop of FetchURL from fetcher.go.  env gives the outcome of the
network attempt made at each attempt index; fuel is MaxRetries minus
the attempts already made.  Each iteration first consumes one rate
gate token (rateLimiter.Wait; cancellation is not modelled, the run is
uninterrupted), then classifies the outcome: transport error or 5xx
sleeps backoff(attempt) and retries, a 4xx (any status in [400,500))
returns its error immediately, and anything below 400 returns the
body.  When fuel runs out the loop exits and the call fails with the
failed-after-MaxRetries error wrapping lastErr. -/
def fetchAttempts (env : Nat → AttemptOutcome) (attempt fuel tokens : Nat)
    (backoffs : List Nat) (lastErr : Option AttemptError) : FetchTrace :=
  match fuel with
  | 0 => ⟨.error (.retriesExhausted maxRetries lastErr), tokens, backoffs⟩
  | fuel' + 1 =>
    match env attempt with
    | .transportError msg =>
      fetchAttempts env (attempt + 1) fuel' (tokens + 1)
        (backoffs ++ [backoffSeconds attempt]) (some (.transport msg))
    | .response status body =>
      if 400 ≤ status then
        if status < 500 then
          ⟨.error (.attemptFailed (.httpStatus status)), tokens + 1, backoffs⟩
        else
          fetchAttempts env (attempt + 1) fuel' (tokens + 1)
            (backoffs ++ [backoffSeconds attempt]) (some (.httpStatus status))
      else ⟨.ok body, tokens + 1, backoffs⟩

/-- Fetcher.IsAllowed from fetcher.go: with no robots.txt loaded
(f.robots == nil) everything is allowed, otherwise defer to the
parsed ruleset with the fixed UserAgent. -/
def fetcherIsAllowed (robots : Option (List RobotsRule))
    (parsedPath : Option String) : Bool :=
  match robots with
  | none => true
  | some rules => isAllowed rules parsedPath UserAgentName

/-- Fetcher.FetchURL from fetcher.go: check robots.txt compliance first
and fail without touching the network or the rate gate when denied;
otherwise run the retry loop for up to MaxRetries attempts. -/
def fetchURL (robots : Option (List RobotsRule)) (parsedPath : Option String)
    (env : Nat → AttemptOutcome) (urlStr : String) : FetchTrace :=
  if fetcherIsAllowed robots parsedPath then
    fetchAttempts env 0 maxRetries 0 [] none
  else ⟨.error (.policyDenied urlStr), 0, []⟩

/-- Rate-limiter configuration of a Fetcher, abstracting the
rate.Limiter values built in fetcher.go: New installs fromUser r for a
positive user rate and unlimited for rate 0, and LoadRobotsTxt may
install fromCrawlDelay d.  The numeric rate is kept as a rational
(1/delay requests per second) instead of a float64; only which
constructor is installed matters to the claims. -/
inductive LimiterSetting where
  | unlimited
  | fromUser (rate : ℚ)
  | fromCrawlDelay (delaySeconds : Int)
deriving DecidableEq, Repr

/-- The fields of Fetcher that the crawl-delay logic reads and writes. -/
structure FetcherState where
  userRateLimit : ℚ
  limiter : LimiterSetting
deriving DecidableEq, Repr

/-- Fetcher.New from fetcher.go, restricted to the rate fields. -/
def newFetcher (requestsPerSecond : ℚ) : FetcherState :=
  if 0 < requestsPerSecond then
    ⟨requestsPerSecond, .fromUser requestsPerSecond⟩
  else ⟨requestsPerSecond, .unlimited⟩

/-- Crawl-delay application step of Fetcher.LoadRobotsTxt (fetcher.go
lines 124-139), run after robots.txt parsed successfully: only when
the user specified no rate limit (userRateLimit == 0) is
GetCrawlDelay consulted, and only a positive delay reconfigures the
limiter. -/
def applyCrawlDelay (f : FetcherState) (rules : List RobotsRule) : FetcherState :=
  if f.userRateLimit = 0 then
    let crawlDelay := getCrawlDelay rules UserAgentName
    if 0 < crawlDelay then { f with limiter := .fromCrawlDelay crawlDelay }
    else f
  else f

/-- Modelled from the spec's description of crawlDelay selection, with
positive in place of nonzero (the amendment claim C6 needs): the
delay of the first agent-specific group with a positive delay, else
of the first wildcard group with a positive delay, else zero. -/
def specCrawlDelay (rules : List RobotsRule) (agent : String) : Int :=
  match (rules.filter (fun r => equalFold r.userAgent agent)).find?
      (fun r => decide (0 < r.crawlDelay)) with
  | some r => r.crawlDelay
  | none =>
    match (rules.filter (fun r => r.userAgent == "*")).find?
        (fun r => decide (0 < r.crawlDelay)) with
    | some r => r.crawlDelay
    | none => 0

/-- The crawl-delay selection exactly as claim C6 words it: the first
agent-specific group with a NONZERO delay, else the first wildcard
group with a nonzero delay, else zero. -/
def claimedCrawlDelay (rules : List RobotsRule) (agent : String) : Int :=
  match (rules.filter (fun r => equalFold r.userAgent agent)).find?
      (fun r => decide (r.crawlDelay ≠ 0)) with
  | some r => r.crawlDelay
  | none =>
    match (rules.filter (fun r => r.userAgent == "*")).find?
        (fun r => decide (r.crawlDelay ≠ 0)) with
    | some r => r.crawlDelay
    | none => 0

/-! ### Aggregator (internal/aggregator)

Go maps word→count are modelled as association lists with one entry per
key, exactly the observable content of the map; mapAdd is m[word] +=
count (updating the entry in place or inserting a fresh one), mapLookup
is m[word] with the zero default.  Counts are Go ints; the claims never
exercise 64-bit overflow, so they are embedded as unbounded Int (every
equation proved here also holds verbatim modulo 2^64). -/

/-- Update-or-insert for the word-count map: m[word] += count. -/
def mapAdd (m : List (String × Int)) (w : String) (c : Int) : List (String × Int) :=
  match m with
  | [] => [(w, c)]
  | (w', c') :: rest =>
    if w' = w then (w', c' + c) :: rest else (w', c') :: mapAdd rest w c

/-- Map read with Go's zero default: m[word]. -/
def mapLookup : List (String × Int) → String → Int
  | [], _ => 0
  | (w', c') :: rest, w => if w' = w then c' else mapLookup rest w

/-- Two word-count maps hold the same content (Go maps are unordered, so
this is equality of maps). -/
def mapEquiv (m₁ m₂ : List (String × Int)) : Prop :=
  ∀ w, mapLookup m₁ w = mapLookup m₂ w

/-- Sum of all counts stored in a word-count map. -/
def valuesSum (m : List (String × Int)) : Int :=
  (m.map Prod.snd).sum

/-- ProcessingResult from the aggregator package: the per-article word
counts (a Go map, one entry per word). -/
structure ProcessingResult where
  url : String
  wordCounts : List (String × Int)
deriving DecidableEq, Repr

/-- The Aggregator state from the aggregator package.  startTime is wall
clock and not modelled; the mutex only serialises access and has no
observable content. -/
structure Aggregator where
  globalWordCounts : List (String × Int)
  totalWordsProcessed : Int
  totalEssaysProcessed : Int
  verbose : Bool
deriving DecidableEq, Repr

/-- aggregator.New. -/
def newAggregator (verbose : Bool) : Aggregator :=
  ⟨[], 0, 0, verbose⟩

/-- Aggregator.AddResult: fold the article's word counts into the global
map while summing them, then bump both totals.  (The Go loop visits
the map entries in unspecified order; both the resulting map and the
sum are independent of that order, so the list order stands in for
it.) -/
def addResult (a : Aggregator) (result : ProcessingResult) : Aggregator :=
  let g := result.wordCounts.foldl (fun m p => mapAdd m p.1 p.2) a.globalWordCounts
  let articleWordCount := (result.wordCounts.map Prod.snd).sum
  { globalWordCounts := g
    totalWordsProcessed := a.totalWordsProcessed + articleWordCount
    totalEssaysProcessed := a.totalEssaysProcessed + 1
    verbose := a.verbose }

/-- WordCount from the aggregator package. -/
structure WordCount where
  word : String
  count : Int
deriving DecidableEq, Repr

/-- Character-list lexicographic less-or-equal, the order Go's string <
induces on the ASCII words this program counts (Go compares bytes;
bytes and characters agree on ASCII). -/
def strLe : List Char → List Char → Bool
  | [], _ => true
  | _ :: _, [] => false
  | a :: as, b :: bs => if a = b then strLe as bs else decide (a < b)

/-- The total order GetTopWords sorts by, read off the sort.Slice
comparator in the aggregator: count descending first, word ascending
as the tie-break. -/
def wcLE (a b : WordCount) : Prop :=
  b.count < a.count ∨ (a.count = b.count ∧ strLe a.word.toList b.word.toList = true)

instance : DecidableRel wcLE := fun _ _ =>
  inferInstanceAs (Decidable (_ ∨ _))

/-- Aggregator.GetTopWords: turn the map into WordCount values, sort by
the comparator (sort.Slice; the comparator is total and the map keys
are distinct, so any correct sort returns the same list —
insertionSort here), and keep the first n, clamped to the length. -/
def getTopWords (counts : List (String × Int)) (n : Nat) : List WordCount :=
  let words := counts.map (fun p => WordCount.mk p.1 p.2)
  let sorted := List.insertionSort wcLE words
  let m := if n > sorted.length then sorted.length else n
  sorted.take m

/-! ### Extraction stage (internal/parser) -/

/-- The ordered content selectors from Parser.ExtractText. -/
def contentSelectors : List String :=
  ["article header, [data-article-body='true']", "[data-article-body='true']"]

/-- Extraction errors of Parser.ExtractText: the wrapped goquery parse
error, or the no-suitable-selectors error. -/
inductive ExtractError where
  | parseHTML
  | noSelectors
deriving DecidableEq, Repr

/-- Abstraction of a parsed goquery document: for each selector string,
`none` when doc.Find(selector) is empty (Length() == 0) and
`some raw` when it selects text raw (before trimming).  An HTML
document the goquery reader rejects is modelled as the whole input
being `none` in extractText below. -/
def HtmlDoc := String → Option String

/-- First selector that yields non-empty trimmed text, with that text;
this is the selector loop of Parser.ExtractText. -/
def firstSelectorText (doc : HtmlDoc) : List String → Option String
  | [] => none
  | sel :: rest =>
    match doc sel with
    | some raw =>
      let text := trimStr raw
      if text.toList.length > 0 then some text else firstSelectorText doc rest
    | none => firstSelectorText doc rest

/-- Parser.ExtractText: parse failure returns the wrapped error without
touching failedCount; otherwise try the selectors in order and return
the first non-empty trimmed text, or increment failedCount and return
the no-suitable-selectors error.  The input is `none` when
goquery.NewDocumentFromReader fails.  Returns the result paired with
the new failedCount. -/
def extractText (failedCount : Int) (input : Option HtmlDoc) :
    Except ExtractError String × Int :=
  match input with
  | none => (.error .parseHTML, failedCount)
  | some doc =>
    match firstSelectorText doc contentSelectors with
    | some text => (.ok text, failedCount)
    | none => (.error .noSelectors, failedCount + 1)

/-- Parser.GetFailedCount: read the counter. -/
def getFailedCount (failedCount : Int) : Int := failedCount

/-- Does the document miss on every content selector (no selector yields
non-empty trimmed text)?  Vocabulary for the claims about
failedCount. -/
def selectorsMiss (doc : HtmlDoc) : Bool :=
  contentSelectors.all fun sel =>
    match doc sel with
    | some raw => (trimStr raw).toList.length = 0
    | none => true

/-- Success test on an extraction result. -/
def isOkResult : Except ExtractError String → Bool
  | .ok _ => true
  | .error _ => false

/-! ### Helper lemmas about the wildcard matcher -/

theorem starSkip_of_self {f : List Char → Bool} {xs : List Char} (h : f xs = true) :
    starSkip f xs = true := by
  cases xs with
  | nil => simpa [starSkip] using h
  | cons c cs => simp [starSkip, h]

theorem starSkip_cons_of_tail {f : List Char → Bool} {c : Char} {cs : List Char}
    (hc : ¬ c = '\n') (h : starSkip f cs = true) : starSkip f (c :: cs) = true := by
  simp [starSkip, hc, h]

/-- A literal starting segment is in particular a wildcard match: if the
pattern (read literally, stars included) starts the path, the
anchored wildcard match also succeeds — a star consumes the literal
star character of the path (which is not a newline) and its rest
matches the rest.  This is why the fall-through strings.HasPrefix
test in matchesPattern never changes the answer for a pattern that
contains a star. -/
theorem wildcardMatch_of_isPrefixOf :
    ∀ ps xs : List Char, ps.isPrefixOf xs = true → wildcardMatch ps xs = true := by
  intro ps
  induction ps with
  | nil => intro xs _; simp [wildcardMatch]
  | cons p ps ih =>
    intro xs h
    cases xs with
    | nil => simp [List.isPrefixOf] at h
    | cons c cs =>
      simp only [List.isPrefixOf, Bool.and_eq_true, beq_iff_eq] at h
      obtain ⟨rfl, htail⟩ := h
      by_cases hstar : p = '*'
      · subst hstar
        simp only [wildcardMatch, if_pos rfl]
        exact starSkip_cons_of_tail (by decide) (starSkip_of_self (ih cs htail))
      · simp [wildcardMatch, hstar, ih cs htail]

/-! ### C4 -/

/-- A bare star pattern matches every path: the regex is an anchored
match of the empty run, so even a newline in the path is irrelevant. -/
theorem wildcardMatch_star (xs : List Char) : wildcardMatch ['*'] xs = true := by
  have hnil : ∀ ys : List Char, wildcardMatch [] ys = true := by
    intro ys; simp [wildcardMatch]
  simp only [wildcardMatch, if_pos rfl]
  exact starSkip_of_self (hnil xs)

/-- Counterexample to claim C4 as stated.  The claim reads each `*` as
standing for any character sequence (claimedWildcardMatch), under
which pattern /a*b matches path /a\nb.  The code's regex is built
with regexp's default `.`, which does not match a newline, and the
HasPrefix fall-through also fails there, so matchesPattern answers
false: Go returns false where the claim requires true.  The path is
reachable, since url.Parse percent-decodes /a%0Ab to /a\nb. -/
theorem C4_counterexample :
    claimedWildcardMatch "/a*b".toList "/a\nb".toList = true ∧
    matchesPattern "/a\nb" "/a*b" = false := by
  decide

/-- Claim C4 as amended (star = any run of NON-NEWLINE characters):
matchesPattern implements the path-pattern semantics for every
path/pattern pair — the empty pattern matches no path; the bare
pattern * matches every path; a pattern containing * matches exactly
when the pattern, anchored at the start of the path with each *
standing for any run of characters none of which is a newline
(wildcardMatch, the semantics of regexp's default `.`), matches; a
pattern without * matches exactly the paths it literally starts
(isPrefixOf); and the two quoted examples. -/
theorem C4_matchesPattern_semantics :
    (∀ path : String, matchesPattern path "" = false) ∧
    (∀ path : String, matchesPattern path "*" = true) ∧
    (∀ path pattern : String, pattern.toList.contains '*' = true →
      matchesPattern path pattern = wildcardMatch pattern.toList path.toList) ∧
    (∀ path pattern : String, pattern.toList ≠ [] →
      pattern.toList.contains '*' = false →
      matchesPattern path pattern = pattern.toList.isPrefixOf path.toList) ∧
    matchesPattern "/tag/expire-images123" "/tag/expire-images*" = true ∧
    matchesPattern "/tag/other" "/tag/expire-images*" = false := by
  refine ⟨?_, ?_, ?_, ?_, by decide, by decide⟩
  · intro path
    rfl
  · intro path
    show matchesPatternL path.toList ['*'] = true
    unfold matchesPatternL
    rw [if_neg (by decide), if_pos (by decide), if_pos (wildcardMatch_star path.toList)]
  · intro path pattern hc
    have hne : pattern.toList ≠ [] := by
      intro hnil
      rw [hnil] at hc
      simp at hc
    show matchesPatternL path.toList pattern.toList = wildcardMatch pattern.toList path.toList
    unfold matchesPatternL
    rw [if_neg hne, if_pos hc]
    cases hw : wildcardMatch pattern.toList path.toList with
    | true => rw [if_pos rfl]
    | false =>
      rw [if_neg Bool.false_ne_true]
      cases hp : pattern.toList.isPrefixOf path.toList with
      | true => rw [wildcardMatch_of_isPrefixOf _ _ hp] at hw; cases hw
      | false => rfl
  · intro path pattern hne hc
    show matchesPatternL path.toList pattern.toList = pattern.toList.isPrefixOf path.toList
    unfold matchesPatternL
    rw [if_neg hne, if_neg (by rw [hc]; exact Bool.false_ne_true)]

/-! ### Fetch-loop lemmas -/

theorem fetchAttempts_tokens_le (env : Nat → AttemptOutcome) :
    ∀ (fuel attempt tokens : Nat) (backoffs : List Nat) (lastErr : Option AttemptError),
      (fetchAttempts env attempt fuel tokens backoffs lastErr).tokensUsed ≤ tokens + fuel := by
  intro fuel
  induction fuel with
  | zero => intro attempt tokens backoffs lastErr; simp [fetchAttempts]
  | succ f ih =>
    intro attempt tokens backoffs lastErr
    simp only [fetchAttempts]
    cases env attempt with
    | transportError msg =>
      exact le_trans (ih _ _ _ _) (by omega)
    | response status body =>
      by_cases h4 : 400 ≤ status
      · by_cases h5 : status < 500
        · simp [h4, h5]
        · simp only [if_pos h4, if_neg h5]
          exact le_trans (ih _ _ _ _) (by omega)
      · simp only [if_neg h4]; omega

/-- A transport failure or 5xx outcome makes the loop sleep the backoff
for the current attempt, record the cause in lastErr, consume the
token it took, and move to the next attempt. -/
theorem fetchAttempts_step_transient (env : Nat → AttemptOutcome) (attempt : Nat)
    (h : isTransient (env attempt) = true) (fuel tokens : Nat) (backoffs : List Nat)
    (lastErr : Option AttemptError) :
    fetchAttempts env attempt (fuel + 1) tokens backoffs lastErr =
      fetchAttempts env (attempt + 1) fuel (tokens + 1)
        (backoffs ++ [backoffSeconds attempt]) (some (transientErr (env attempt))) := by
  cases he : env attempt with
  | transportError msg => simp [fetchAttempts, he, transientErr]
  | response status body =>
    rw [he] at h
    simp only [isTransient, decide_eq_true_eq] at h
    have h4 : 400 ≤ status := by omega
    have hn5 : ¬ status < 500 := by omega
    simp [fetchAttempts, he, transientErr, h4, hn5]

/-! ### List.any distribution lemmas used for C1 -/

theorem anyAppendEq {α : Type} (l₁ l₂ : List α) (q : α → Bool) :
    (l₁ ++ l₂).any q = (l₁.any q || l₂.any q) := by
  induction l₁ with
  | nil => rfl
  | cons a l ih => simp [List.any_cons, ih, Bool.or_assoc]

theorem anyFilterEq {α : Type} (l : List α) (p q : α → Bool) :
    (l.filter p).any q = l.any (fun x => p x && q x) := by
  induction l with
  | nil => rfl
  | cons a l ih =>
    cases hp : p a <;> simp [List.filter_cons, hp, List.any_cons, ih]

theorem anyOrSplit {α : Type} (l : List α) (f g : α → Bool) :
    l.any (fun x => f x || g x) = (l.any f || l.any g) := by
  induction l with
  | nil => rfl
  | cons a l ih =>
    cases hf : f a <;> cases hg : g a <;>
      simp [List.any_cons, hf, hg, ih, Bool.or_assoc, Bool.or_left_comm]

theorem boolAndOrRight (a b c : Bool) : ((a || b) && c) = (a && c || b && c) := by
  cases a <;> cases b <;> cases c <;> rfl

/-! ### C1 -/

/-- Counterexample to claim C1 as stated.  The policy (parseable from a
real robots.txt document, first conjunct) has an agent-specific group
for EssayAnalyzer/1.0 whose only disallow pattern does not match the
path /foo (second conjunct), and a wildcard group whose pattern does
match it (third conjunct) — the two groups disagree on /foo.  The
claim requires IsAllowed to give the agent-specific group precedence
and answer true; the code answers false, because it always appends
the wildcard groups to the applicable rules (fetcher.go lines
320-325: they apply to everyone), as its own test
TestFetcher_IsAllowed_WithRobots also expects. -/
theorem C1_counterexample :
    parseRobotsTxt "User-agent: EssayAnalyzer/1.0\nDisallow: /secret/\n\nUser-agent: *\nDisallow: /" =
      [⟨"EssayAnalyzer/1.0", ["/secret/"], 0⟩, ⟨"*", ["/"], 0⟩] ∧
    ((([⟨"EssayAnalyzer/1.0", ["/secret/"], 0⟩, ⟨"*", ["/"], 0⟩] : List RobotsRule).filter
        (fun r => equalFold r.userAgent "EssayAnalyzer/1.0")).all
      (fun r => r.disallowed.all (fun pat => !matchesPattern "/foo" pat)) = true) ∧
    ((([⟨"EssayAnalyzer/1.0", ["/secret/"], 0⟩, ⟨"*", ["/"], 0⟩] : List RobotsRule).filter
        (fun r => r.userAgent == "*")).any
      (fun r => r.disallowed.any (fun pat => matchesPattern "/foo" pat)) = true) ∧
    isAllowed [⟨"EssayAnalyzer/1.0", ["/secret/"], 0⟩, ⟨"*", ["/"], 0⟩] (some "/foo")
      "EssayAnalyzer/1.0" = false := by
  decide

/-- Claim C1 as amended: agent-specific groups do NOT take precedence
over wildcard groups.  For a parsed URL, IsAllowed answers true
exactly when the policy has no rule groups at all, or no group that
is applicable — agent-specific (case-insensitive exact match) or
wildcard, wildcard groups applying to every agent in addition to the
agent-specific ones — has a disallow pattern matching the path
(empty path defaulting to /).  In particular, for agents with no
matching specific group exactly the wildcard groups apply. -/
theorem C1_wildcard_rules_always_apply :
    ∀ (rules : List RobotsRule) (p agent : String),
      isAllowed rules (some p) agent =
        (rules.isEmpty ||
          !(rules.any fun r =>
              (equalFold r.userAgent agent || r.userAgent == "*") &&
                r.disallowed.any fun pat =>
                  matchesPattern (if p = "" then "/" else p) pat)) := by
  intro rules p agent
  cases h : rules.isEmpty with
  | true => simp [isAllowed, h]
  | false =>
    simp only [isAllowed, h, Bool.false_or, if_false, Bool.false_eq_true]
    simp [anyAppendEq, anyFilterEq, anyOrSplit, boolAndOrRight]

/-! ### C3 -/

/-- Counterexample to claim C3 as stated.  A loaded crawl policy can
have zero rule groups (an empty robots.txt parses to zero groups,
first conjunct), and for such a policy IsAllowed returns true before
ever looking at the URL, so a malformed URL (url.Parse failure,
modelled by the `none` path) is NOT treated as disallowed: the claim
requires false, the code answers true. -/
theorem C3_counterexample :
    parseRobotsTxt "" = ([] : List RobotsRule) ∧
    isAllowed [] none "EssayAnalyzer/1.0" = true := by
  decide

/-- Claim C3 as amended: for every loaded crawl policy with at least one
rule group and every queried agent, a URL string the URL parser
rejects is answered false (fail closed); with zero rule groups
IsAllowed answers true unconditionally, URL syntax included. -/
theorem C3_malformed_url_fail_closed :
    ∀ (rules : List RobotsRule) (agent : String), rules ≠ [] →
      isAllowed rules none agent = false := by
  intro rules agent h
  have hne : rules.isEmpty = false := by
    cases rules with
    | nil => exact absurd rfl h
    | cons r rs => rfl
  simp [isAllowed, hne]

/-- Witness for C3: the amended theorem applied to a concrete one-group
policy. -/
theorem C3_malformed_url_fail_closed_witness :
    isAllowed [⟨"*", ["/private/"], 0⟩] none "EssayAnalyzer/1.0" = false :=
  C3_malformed_url_fail_closed [⟨"*", ["/private/"], 0⟩] "EssayAnalyzer/1.0" (by decide)

/-- Witness for C4 at concrete inputs: the wildcard-pattern conjunct at
pattern "/a*" and path "/ab", and the plain-pattern conjunct at
pattern "/ad" and path "/admin". -/
theorem C4_matchesPattern_semantics_witness :
    matchesPattern "/ab" "/a*" = wildcardMatch "/a*".toList "/ab".toList ∧
    matchesPattern "/admin" "/ad" = "/ad".toList.isPrefixOf "/admin".toList := by
  constructor
  · exact C4_matchesPattern_semantics.2.2.1 "/ab" "/a*" (by decide)
  · exact C4_matchesPattern_semantics.2.2.2.1 "/admin" "/ad" (by decide) (by decide)

/-! ### C2 -/

/-- Claim C2: for every URL the crawl policy allows, FetchURL makes at
most MaxRetries = 3 attempts, each attempt consuming one rate-gate
token (tokensUsed counts the rateLimiter.Wait calls); the backoff
doubles from a 1-second base per attempt and is capped at a
30-second ceiling; the 5xx-5xx-success scenario returns the success
body with three tokens consumed and increasing backoffs 1 s then
2 s; a 4xx on the first attempt fails immediately with its status
error, one token and no backoff; and when every attempt is transient
(transport failure or 5xx) the call fails with the
failed-after-3-attempts error wrapping the last cause. -/
theorem C2_fetch_retry_contract (robots : Option (List RobotsRule)) (pp : Option String)
    (url : String) (h : fetcherIsAllowed robots pp = true) :
    (∀ env, (fetchURL robots pp env url).tokensUsed ≤ maxRetries) ∧
    (backoffSeconds 0 = 1 ∧
      ∀ a : Nat, backoffSeconds (a + 1) = min (2 * backoffSeconds a) 30) ∧
    (∀ body : String,
      fetchURL robots pp
          (fun i => if i < 2 then .response 500 "err" else .response 200 body) url =
        ⟨.ok body, 3, [1, 2]⟩) ∧
    (∀ (env : Nat → AttemptOutcome) (status : Nat) (body : String),
      400 ≤ status → status < 500 → env 0 = .response status body →
      fetchURL robots pp env url = ⟨.error (.attemptFailed (.httpStatus status)), 1, []⟩) ∧
    (∀ env : Nat → AttemptOutcome, (∀ i, i < maxRetries → isTransient (env i) = true) →
      fetchURL robots pp env url =
        ⟨.error (.retriesExhausted maxRetries (some (transientErr (env 2)))), 3, [1, 2, 4]⟩) := by
  refine ⟨?_, ⟨rfl, ?_⟩, ?_, ?_, ?_⟩
  · intro env
    simp only [fetchURL, h, if_true]
    exact fetchAttempts_tokens_le env 3 0 0 [] none
  · intro a
    unfold backoffSeconds
    have h2 : (2 : Nat) ^ (a + 1) = 2 * 2 ^ a := by ring
    omega
  · intro body
    simp [fetchURL, h, fetchAttempts, backoffSeconds]
  · intro env status body h4 h5 he
    simp [fetchURL, h, fetchAttempts, he, h4, h5, maxRetries]
  · intro env htr
    simp only [fetchURL, h, if_true, maxRetries]
    rw [show (3 : Nat) = 2 + 1 from rfl, fetchAttempts_step_transient env 0 (htr 0 (by decide)),
        show (2 : Nat) = 1 + 1 from rfl, fetchAttempts_step_transient env 1 (htr 1 (by decide)),
        show (1 : Nat) = 0 + 1 from rfl, fetchAttempts_step_transient env 2 (htr 2 (by decide))]
    simp [fetchAttempts, backoffSeconds, maxRetries]

/-- Witness for C2: the retry contract applied with no robots.txt loaded
(everything allowed), exercising the 5xx-5xx-success scenario and the
immediate 4xx failure at concrete inputs. -/
theorem C2_fetch_retry_contract_witness :
    fetchURL none (some "/") (fun i => if i < 2 then .response 500 "err" else .response 200 "okbody")
        "https://example.com/" = ⟨.ok "okbody", 3, [1, 2]⟩ ∧
    fetchURL none (some "/") (fun _ => .response 404 "nf") "https://example.com/" =
      ⟨.error (.attemptFailed (.httpStatus 404)), 1, []⟩ := by
  constructor
  · exact (C2_fetch_retry_contract none (some "/") "https://example.com/" rfl).2.2.1 "okbody"
  · exact (C2_fetch_retry_contract none (some "/") "https://example.com/" rfl).2.2.2.1
      (fun _ => .response 404 "nf") 404 "nf" (by omega) (by omega) rfl

/-! ### C7 -/

/-- Claim C7: for every URL the loaded crawl policy disallows for the
fixed agent name, FetchURL returns the policy-denied error having
made zero network attempts and consumed zero rate-gate tokens (the
rate limiter is never waited on). -/
theorem C7_policy_denied_no_network (robots : Option (List RobotsRule))
    (pp : Option String) (env : Nat → AttemptOutcome) (url : String)
    (h : fetcherIsAllowed robots pp = false) :
    fetchURL robots pp env url = ⟨.error (.policyDenied url), 0, []⟩ := by
  simp [fetchURL, h]

/-- Witness for C7: a policy whose wildcard group disallows everything
under /, a URL with path /x, and an environment whose every attempt
would succeed — FetchURL still returns the denial with zero tokens. -/
theorem C7_policy_denied_no_network_witness :
    fetchURL (some [⟨"*", ["/"], 0⟩]) (some "/x") (fun _ => .response 200 "body")
        "https://example.com/x" =
      ⟨.error (.policyDenied "https://example.com/x"), 0, []⟩ :=
  C7_policy_denied_no_network (some [⟨"*", ["/"], 0⟩]) (some "/x")
    (fun _ => .response 200 "body") "https://example.com/x" (by decide)

/-! ### C6 -/

theorem findFilterEq {α : Type} (l : List α) (p q : α → Bool) :
    (l.filter p).find? q = l.find? (fun x => p x && q x) := by
  induction l with
  | nil => rfl
  | cons a l ih =>
    cases hp : p a with
    | false => simp [List.filter_cons, hp, List.find?_cons, ih]
    | true =>
      cases hq : q a with
      | true => simp [List.filter_cons, hp, List.find?_cons, hq]
      | false => simp [List.filter_cons, hp, List.find?_cons, hq, ih]

/-- Counterexample to claim C6 as stated.  The parser accepts a negative
crawl delay (strconv.Atoi parses "-5"), producing an agent-specific
group whose delay -5 is nonzero; the claim then requires
GetCrawlDelay to return -5, the first agent-specific nonzero delay,
but the code tests CrawlDelay > 0, skips that group, and returns the
wildcard group's 3. -/
theorem C6_counterexample :
    parseRobotsTxt "User-agent: EssayAnalyzer/1.0\nCrawl-delay: -5\nUser-agent: *\nCrawl-delay: 3" =
      [⟨"EssayAnalyzer/1.0", [], -5⟩, ⟨"*", [], 3⟩] ∧
    claimedCrawlDelay [⟨"EssayAnalyzer/1.0", [], -5⟩, ⟨"*", [], 3⟩] "EssayAnalyzer/1.0" = -5 ∧
    getCrawlDelay [⟨"EssayAnalyzer/1.0", [], -5⟩, ⟨"*", [], 3⟩] "EssayAnalyzer/1.0" = 3 := by
  decide

/-- Claim C6 as amended (nonzero → positive): GetCrawlDelay returns the
delay of the first agent-specific group with a positive delay, else
the delay of the first wildcard group with a positive delay, else
zero; and the crawl delay reconfigures the rate limiter only when
the caller supplied no explicit rate override — with a nonzero user
rate limit LoadRobotsTxt never touches the limiter. -/
theorem C6_crawl_delay_selection :
    (∀ (rules : List RobotsRule) (agent : String),
      getCrawlDelay rules agent = specCrawlDelay rules agent) ∧
    (∀ (f : FetcherState) (rules : List RobotsRule), f.userRateLimit ≠ 0 →
      applyCrawlDelay f rules = f) := by
  constructor
  · intro rules agent
    cases rules with
    | nil => rfl
    | cons r rs =>
      unfold getCrawlDelay specCrawlDelay
      rw [findFilterEq, findFilterEq]
      simp
  · intro f rules h
    unfold applyCrawlDelay
    rw [if_neg h]

/-- Witness for C6: the selection equation at a one-group policy, and the
no-reconfiguration clause at a fetcher with user rate limit 2. -/
theorem C6_crawl_delay_selection_witness :
    getCrawlDelay [⟨"*", [], 7⟩] "EssayAnalyzer/1.0" =
      specCrawlDelay [⟨"*", [], 7⟩] "EssayAnalyzer/1.0" ∧
    applyCrawlDelay ⟨2, .fromUser 2⟩ [⟨"*", [], 7⟩] = ⟨2, .fromUser 2⟩ :=
  ⟨C6_crawl_delay_selection.1 [⟨"*", [], 7⟩] "EssayAnalyzer/1.0",
   C6_crawl_delay_selection.2 ⟨2, .fromUser 2⟩ [⟨"*", [], 7⟩] (by norm_num)⟩

/-! ### Aggregator lemmas -/

/-- Contribution of one article's word counts to the queried word. -/
def weightOf (ps : List (String × Int)) (x : String) : Int :=
  (ps.map (fun p => if p.1 = x then p.2 else 0)).sum

theorem mapLookup_mapAdd (w x : String) (c : Int) :
    ∀ m : List (String × Int),
      mapLookup (mapAdd m w c) x = mapLookup m x + (if w = x then c else 0) := by
  intro m
  induction m with
  | nil =>
    by_cases hx : w = x <;> simp [mapAdd, mapLookup, hx]
  | cons p rest ih =>
    obtain ⟨w', c'⟩ := p
    by_cases hww : w' = w
    · subst hww
      by_cases hx : w' = x <;> simp [mapAdd, mapLookup, hx]
    · by_cases hx : w' = x
      · have hwx : ¬ w = x := fun hh => hww (by rw [hx, hh])
        have hxw : ¬ x = w := fun hh => hwx (by rw [hh])
        simp [mapAdd, mapLookup, hww, hx, hwx, hxw]
      · simp [mapAdd, mapLookup, hww, hx, ih]

theorem mapLookup_foldl_mapAdd (x : String) :
    ∀ (ps : List (String × Int)) (m : List (String × Int)),
      mapLookup (ps.foldl (fun acc p => mapAdd acc p.1 p.2) m) x =
        mapLookup m x + weightOf ps x := by
  intro ps
  induction ps with
  | nil => intro m; simp [weightOf]
  | cons p ps ih =>
    intro m
    simp only [List.foldl_cons]
    rw [ih, mapLookup_mapAdd]
    simp only [weightOf, List.map_cons, List.sum_cons]
    ring

theorem valuesSum_mapAdd (w : String) (c : Int) :
    ∀ m : List (String × Int), valuesSum (mapAdd m w c) = valuesSum m + c := by
  intro m
  induction m with
  | nil => simp [mapAdd, valuesSum]
  | cons p rest ih =>
    obtain ⟨w', c'⟩ := p
    by_cases hww : w' = w
    · simp [mapAdd, hww, valuesSum]
      ring
    · simp only [mapAdd, if_neg hww, valuesSum, List.map_cons, List.sum_cons] at ih ⊢
      rw [ih]
      ring

theorem valuesSum_foldl_mapAdd :
    ∀ (ps : List (String × Int)) (m : List (String × Int)),
      valuesSum (ps.foldl (fun acc p => mapAdd acc p.1 p.2) m) =
        valuesSum m + (ps.map Prod.snd).sum := by
  intro ps
  induction ps with
  | nil => intro m; simp
  | cons p ps ih =>
    intro m
    simp only [List.foldl_cons, List.map_cons, List.sum_cons]
    rw [ih, valuesSum_mapAdd]
    ring

theorem foldl_addResult_essays :
    ∀ (rs : List ProcessingResult) (a : Aggregator),
      (rs.foldl addResult a).totalEssaysProcessed =
        a.totalEssaysProcessed + (rs.length : Int) := by
  intro rs
  induction rs with
  | nil => intro a; simp
  | cons r rs ih =>
    intro a
    simp only [List.foldl_cons, List.length_cons]
    rw [ih]
    simp only [addResult]
    push_cast
    ring

theorem foldl_addResult_words :
    ∀ (rs : List ProcessingResult) (a : Aggregator),
      (rs.foldl addResult a).totalWordsProcessed =
        a.totalWordsProcessed +
          (rs.map (fun r => (r.wordCounts.map Prod.snd).sum)).sum := by
  intro rs
  induction rs with
  | nil => intro a; simp
  | cons r rs ih =>
    intro a
    simp only [List.foldl_cons, List.map_cons, List.sum_cons]
    rw [ih]
    simp only [addResult]
    ring

theorem foldl_addResult_lookup (x : String) :
    ∀ (rs : List ProcessingResult) (a : Aggregator),
      mapLookup (rs.foldl addResult a).globalWordCounts x =
        mapLookup a.globalWordCounts x +
          (rs.map (fun r => weightOf r.wordCounts x)).sum := by
  intro rs
  induction rs with
  | nil => intro a; simp
  | cons r rs ih =>
    intro a
    simp only [List.foldl_cons, List.map_cons, List.sum_cons]
    rw [ih]
    simp only [addResult]
    rw [mapLookup_foldl_mapAdd]
    ring

theorem foldl_addResult_valuesSum :
    ∀ (rs : List ProcessingResult) (a : Aggregator),
      valuesSum (rs.foldl addResult a).globalWordCounts =
        valuesSum a.globalWordCounts +
          (rs.map (fun r => (r.wordCounts.map Prod.snd).sum)).sum := by
  intro rs
  induction rs with
  | nil => intro a; simp
  | cons r rs ih =>
    intro a
    simp only [List.foldl_cons, List.map_cons, List.sum_cons]
    rw [ih]
    simp only [addResult]
    rw [valuesSum_foldl_mapAdd]
    ring

/-! ### C5 -/

/-- Claim C5: aggregation is commutative.  Feeding any finite collection
of per-item word-count mappings to a fresh Aggregator via AddResult
in any order (l and any permutation l' of it) yields the same global
word frequencies (equal as maps), the same totalWordsProcessed, and
the same totalEssaysProcessed. -/
theorem C5_aggregation_commutative (v : Bool) (l l' : List ProcessingResult)
    (h : l.Perm l') :
    mapEquiv (l.foldl addResult (newAggregator v)).globalWordCounts
        (l'.foldl addResult (newAggregator v)).globalWordCounts ∧
    (l.foldl addResult (newAggregator v)).totalWordsProcessed =
      (l'.foldl addResult (newAggregator v)).totalWordsProcessed ∧
    (l.foldl addResult (newAggregator v)).totalEssaysProcessed =
      (l'.foldl addResult (newAggregator v)).totalEssaysProcessed := by
  refine ⟨?_, ?_, ?_⟩
  · intro x
    rw [foldl_addResult_lookup x l _, foldl_addResult_lookup x l' _,
        (h.map (fun r => weightOf r.wordCounts x)).sum_eq]
  · rw [foldl_addResult_words, foldl_addResult_words,
        (h.map (fun r => (r.wordCounts.map Prod.snd).sum)).sum_eq]
  · rw [foldl_addResult_essays, foldl_addResult_essays, h.length_eq]

/-- Witness for C5: two concrete articles fed in both orders produce the
same lookup for the word technology and the same totals. -/
theorem C5_aggregation_commutative_witness :
    mapLookup ((([⟨"u1", [("technology", 5), ("computer", 2)]⟩,
          ⟨"u2", [("technology", 1)]⟩] : List ProcessingResult).foldl addResult
        (newAggregator false)).globalWordCounts) "technology" =
      mapLookup ((([⟨"u2", [("technology", 1)]⟩,
          ⟨"u1", [("technology", 5), ("computer", 2)]⟩] : List ProcessingResult).foldl addResult
        (newAggregator false)).globalWordCounts) "technology" ∧
    (([⟨"u1", [("technology", 5), ("computer", 2)]⟩,
          ⟨"u2", [("technology", 1)]⟩] : List ProcessingResult).foldl addResult
        (newAggregator false)).totalWordsProcessed =
      (([⟨"u2", [("technology", 1)]⟩,
          ⟨"u1", [("technology", 5), ("computer", 2)]⟩] : List ProcessingResult).foldl addResult
        (newAggregator false)).totalWordsProcessed ∧
    (([⟨"u1", [("technology", 5), ("computer", 2)]⟩,
          ⟨"u2", [("technology", 1)]⟩] : List ProcessingResult).foldl addResult
        (newAggregator false)).totalEssaysProcessed =
      (([⟨"u2", [("technology", 1)]⟩,
          ⟨"u1", [("technology", 5), ("computer", 2)]⟩] : List ProcessingResult).foldl addResult
        (newAggregator false)).totalEssaysProcessed :=
  ⟨(C5_aggregation_commutative false _ _
      (List.Perm.swap ⟨"u2", [("technology", 1)]⟩ ⟨"u1", [("technology", 5), ("computer", 2)]⟩ [])).1
      "technology",
   (C5_aggregation_commutative false _ _
      (List.Perm.swap ⟨"u2", [("technology", 1)]⟩ ⟨"u1", [("technology", 5), ("computer", 2)]⟩ [])).2.1,
   (C5_aggregation_commutative false _ _
      (List.Perm.swap ⟨"u2", [("technology", 1)]⟩ ⟨"u1", [("technology", 5), ("computer", 2)]⟩ [])).2.2⟩

/-! ### C9 -/

/-- Claim C9: invariant of the Aggregator under every sequence of
AddResult calls starting from New — totalWordsProcessed equals the
sum of all counts stored in the global word-count map and
totalEssaysProcessed equals the number of AddResult calls; and an
empty word-count mapping still increments totalEssaysProcessed by
one while changing nothing else. -/
theorem C9_aggregator_invariant :
    (∀ (v : Bool) (rs : List ProcessingResult),
      (rs.foldl addResult (newAggregator v)).totalWordsProcessed =
        valuesSum (rs.foldl addResult (newAggregator v)).globalWordCounts ∧
      (rs.foldl addResult (newAggregator v)).totalEssaysProcessed = (rs.length : Int)) ∧
    (∀ (a : Aggregator) (u : String),
      addResult a ⟨u, []⟩ =
        { a with totalEssaysProcessed := a.totalEssaysProcessed + 1 }) := by
  constructor
  · intro v rs
    constructor
    · rw [foldl_addResult_words, foldl_addResult_valuesSum]
      simp [newAggregator, valuesSum]
    · rw [foldl_addResult_essays]
      simp [newAggregator]
  · intro a u
    cases a
    simp [addResult]

/-! ### C8 -/

theorem strLe_total : ∀ xs ys : List Char, strLe xs ys = true ∨ strLe ys xs = true := by
  intro xs
  induction xs with
  | nil => intro ys; left; rfl
  | cons a as ih =>
    intro ys
    cases ys with
    | nil => right; rfl
    | cons b bs =>
      by_cases hab : a = b
      · subst hab
        rcases ih bs with h | h
        · left; simp [strLe, h]
        · right; simp [strLe, h]
      · rcases lt_trichotomy a b with hlt | heq | hgt
        · left; simp [strLe, hab, hlt]
        · exact absurd heq hab
        · right
          have hba : ¬ b = a := fun hh => hab hh.symm
          simp [strLe, hba, hgt]

theorem strLe_trans :
    ∀ xs ys zs : List Char, strLe xs ys = true → strLe ys zs = true → strLe xs zs = true := by
  intro xs
  induction xs with
  | nil => intro ys zs h1 h2; rfl
  | cons a as ih =>
    intro ys zs h1 h2
    cases ys with
    | nil => simp [strLe] at h1
    | cons b bs =>
      cases zs with
      | nil => simp [strLe] at h2
      | cons c cs =>
        by_cases hab : a = b <;> by_cases hbc : b = c
        · subst hab; subst hbc
          simp only [strLe, if_pos rfl] at h1 h2 ⊢
          exact ih bs cs h1 h2
        · subst hab
          simp only [strLe, if_pos rfl] at h1
          simp only [strLe, if_neg hbc] at h2
          have hlt : a < c := of_decide_eq_true h2
          have hac : ¬ a = c := ne_of_lt hlt
          simp [strLe, hac, hlt]
        · subst hbc
          simp only [strLe, if_neg hab] at h1
          have hlt : a < b := of_decide_eq_true h1
          have hac : ¬ a = b := ne_of_lt hlt
          simp [strLe, hac, hlt]
        · simp only [strLe, if_neg hab] at h1
          simp only [strLe, if_neg hbc] at h2
          have h1' : a < b := of_decide_eq_true h1
          have h2' : b < c := of_decide_eq_true h2
          have hlt : a < c := lt_trans h1' h2'
          have hac : ¬ a = c := ne_of_lt hlt
          simp [strLe, hac, hlt]

instance : IsTotal WordCount wcLE := ⟨by
  intro a b
  rcases lt_trichotomy a.count b.count with h | h | h
  · right; left; exact h
  · rcases strLe_total a.word.toList b.word.toList with hs | hs
    · left; right; exact ⟨h, hs⟩
    · right; right; exact ⟨h.symm, hs⟩
  · left; left; exact h⟩

instance : IsTrans WordCount wcLE := ⟨by
  intro a b c hab hbc
  rcases hab with h1 | ⟨e1, s1⟩ <;> rcases hbc with h2 | ⟨e2, s2⟩
  · left; omega
  · left; omega
  · left; omega
  · right; exact ⟨e1.trans e2, strLe_trans _ _ _ s1 s2⟩⟩

/-- Claim C8: for every aggregated word-count state and requested size
n, GetTopWords returns a list sorted by the total order wcLE — count
descending as primary key, word ascending lexicographically as
tie-break — and on the quoted example with n = 3 it yields
technology(18), science(7), computer(5). -/
theorem C8_top_words_order :
    (∀ (counts : List (String × Int)) (n : Nat),
      List.Sorted wcLE (getTopWords counts n)) ∧
    getTopWords [("computer", 5), ("innovation", 5), ("science", 7), ("technology", 18)] 3 =
      [⟨"technology", 18⟩, ⟨"science", 7⟩, ⟨"computer", 5⟩] := by
  constructor
  · intro counts n
    unfold getTopWords
    have hs := List.sorted_insertionSort wcLE (counts.map (fun p => WordCount.mk p.1 p.2))
    exact List.Pairwise.sublist (List.take_sublist _ _) hs
  · decide

/-! ### C10 -/

/-- The selector loop returns nothing exactly when every content
selector misses: it selects nothing or only whitespace. -/
theorem firstSelectorText_eq_none_iff (doc : HtmlDoc) :
    ∀ sels : List String,
      (firstSelectorText doc sels = none) ↔
        (sels.all (fun sel => match doc sel with
          | some raw => (trimStr raw).toList.length = 0
          | none => true) = true) := by
  intro sels
  induction sels with
  | nil => simp [firstSelectorText]
  | cons s rest ih =>
    cases hd : doc s with
    | none =>
      simp only [firstSelectorText, hd, List.all_cons, Bool.true_and]
      exact ih
    | some raw =>
      by_cases hlen : (trimStr raw).toList.length > 0
      · have hdec : (decide ((trimStr raw).toList.length = 0)) = false := by
          simp only [decide_eq_false_iff_not]
          omega
        simp only [firstSelectorText, hd, if_pos hlen, List.all_cons, hdec, Bool.false_and]
        constructor
        · intro hh; cases hh
        · intro hh; cases hh
      · have hdec : (decide ((trimStr raw).toList.length = 0)) = true := by
          simp only [decide_eq_true_eq]
          omega
        simp only [firstSelectorText, hd, if_neg hlen, List.all_cons, hdec, Bool.true_and]
        exact ih

/-- Claim C10: ExtractText increments the shared failure counter exactly
when the HTML document parses successfully but no content selector
yields non-empty trimmed text (selectorsMiss); when the document
itself fails to parse, ExtractText returns an error without touching
the counter — so GetFailedCount counts only selector misses, never
HTML parse failures. -/
theorem C10_extract_failure_counter :
    ∀ (c : Int) (doc : HtmlDoc),
      extractText c none = (.error .parseHTML, c) ∧
      getFailedCount (extractText c (some doc)).2 =
        getFailedCount c + (if selectorsMiss doc then 1 else 0) ∧
      isOkResult (extractText c (some doc)).1 = !(selectorsMiss doc) := by
  intro c doc
  cases hf : firstSelectorText doc contentSelectors with
  | none =>
    have hmiss : selectorsMiss doc = true := by
      unfold selectorsMiss
      exact (firstSelectorText_eq_none_iff doc contentSelectors).mp hf
    refine ⟨rfl, ?_, ?_⟩ <;> simp [extractText, hf, hmiss, getFailedCount, isOkResult]
  | some t =>
    have hmiss : selectorsMiss doc = false := by
      cases hms : selectorsMiss doc with
      | false => rfl
      | true =>
        unfold selectorsMiss at hms
        have := (firstSelectorText_eq_none_iff doc contentSelectors).mpr hms
        rw [hf] at this
        cases this
    refine ⟨rfl, ?_, ?_⟩ <;> simp [extractText, hf, hmiss, getFailedCount, isOkResult]

end Firefly
